import Mathlib

/-!
# Verification of the sqct work-partitioning / ledger / archival subsystem

Shallow embedding of the Python sources in `run/`:

* `run_sqct_one_by_one.py` — the Dispatcher/RangePlanner main loop,
  `load_tracked_ids`, `append_ids_to_file`;
* `archive_completed_results.py` — `check_range_completion`, the
  archiving block and the removal loop.

Machine integers are modelled as `Nat` (all quantities involved are
non-negative Python ints, which are unbounded).  File-system and
scheduler effects are modelled by explicit state passing together with
failure oracles (`Bool`-valued functions saying which operation fails).
-/

namespace Sqct

/-- Step for k values, fixed at 2 for odd k
(`K_STEP = 2` in both scripts). -/
def K_STEP : Nat := 2

/-- Python `range(a, b, s)` for a non-negative step: the list
`[a, a+s, a+2*s, ...]` of all values `< b`.  For `s = 0` (or `b ≤ a`)
the list is empty (CPython would raise on `s = 0`; no call site uses
`s = 0`).  Closed form: `(b - a + s - 1) / s` elements `a + i * s`. -/
def pyRange (a b s : Nat) : List Nat :=
  (List.range ((b - a + s - 1) / s)).map (fun i => a + i * s)

/-- Canonical ID string `f"{n}_{k}"` of an IndividualId. -/
def idStr (n k : Nat) : String := toString n ++ "_" ++ toString k

/-- The ordered list of constituent ID strings of the range
`[kmin, kmax)` for space size `n`: one ID per `k` produced by
`range(kmin, kmax, step)`. -/
def enumerateRange (n kmin kmax step : Nat) : List String :=
  (pyRange kmin kmax step).map (idStr n)

/-- Model of `check_range_completion` from
`archive_completed_results.py`: checks whether every odd `k` in
`[kmin, kmax)` for `n` is in the completed set; returns
`(allComplete, missingIds)`.  An empty or invalid range
(`kmin >= kmax`) is `(false, [])`. -/
def check_range_completion (n kmin kmax : Nat) (completedSet : List String) :
    Bool × List String :=
  if kmax ≤ kmin then (false, [])
  else
    let missing := (enumerateRange n kmin kmax K_STEP).filter
      (fun id => decide (id ∉ completedSet))
    (missing.isEmpty, missing)

/-- The ranges the Dispatcher iterates over:
`for kmin in range(1, maxK, span)` with
`kmax_actual = min(kmin + span, maxK)`, where `span = NUM_K_PER_JOB *
K_STEP` and `maxK = MAX_K = N / 2`. -/
def partitionRanges (maxK span : Nat) : List (Nat × Nat) :=
  (pyRange 1 maxK span).map (fun kmin => (kmin, min (kmin + span) maxK))

/-! ## Dispatcher (`run_sqct_one_by_one.py` main loop)

The loop body for one `kmin` does, in source order: compute
`kmax_actual`; build the constituent IDs and skip the whole range if
any is in `started_ids_set`; skip if the ID list is empty; call
`append_ids_to_file` on the `started` ledger (IOError is caught inside,
so a failure leaves the file unchanged but does not abort); update the
in-memory set; write the config file (IOError counts an error and
`continue`s); run `qsub` (success increments `submitted_count`;
`FileNotFoundError` counts an error and `break`s the whole loop;
`CalledProcessError` counts an error and falls through to the next
range). -/

/-- Outcome of one `qsub` invocation: success, `FileNotFoundError`
(qsub not installed), or `CalledProcessError` (qsub rejected the job). -/
inductive QsubRes where
  | ok
  | notFound
  | rejected
deriving DecidableEq, Repr

/-- Failure oracles for one Dispatcher run, keyed by the range's
`kmin`: whether the `started`-ledger append raises `IOError`, whether
the config-file write raises `IOError`, and what `qsub` does. -/
structure Env where
  appendFails : Nat → Bool
  configFails : Nat → Bool
  qsub : Nat → QsubRes

/-- Observable state of one Dispatcher run: the `started_ids.txt` file
contents (as its list of lines), the in-memory `started_ids_set`
(membership semantics), the counters, and the `(kmin, kmax_actual)`
pairs successfully submitted. -/
structure DispState where
  ledger : List String
  startedSet : List String
  submitted : Nat
  skipped : Nat
  errors : Nat
  submittedRanges : List (Nat × Nat)
deriving DecidableEq, Repr

/-- Events of a Dispatcher run, in program order: the invocation of
`append_ids_to_file` on the `started` ledger for a range, and the
invocation of `qsub` for a range. -/
inductive Ev where
  | appendStarted (kmin : Nat) (ids : List String)
  | submitAttempt (kmin : Nat) (ids : List String)
deriving DecidableEq, Repr

/-- The constituent IDs of the range starting at `kmin`:
`f"{N}_{k}"` for `k in range(kmin, kmax_actual, K_STEP)` with
`kmax_actual = min(kmin + span, maxK)`. -/
def rangeIdsOf (n maxK span kmin : Nat) : List String :=
  enumerateRange n kmin (min (kmin + span) maxK) K_STEP

/-- One iteration of the Dispatcher main loop (the body for one
`kmin`, after the `MAX_JOBS` check).  Returns the new state, the
events emitted, and whether the loop `break`s. -/
def dispatchStep (env : Env) (n maxK span : Nat) (st : DispState) (kmin : Nat) :
    DispState × List Ev × Bool :=
  let kmaxActual := min (kmin + span) maxK
  let ids := rangeIdsOf n maxK span kmin
  if ids.any (fun id => decide (id ∈ st.startedSet)) then
    ({ st with skipped := st.skipped + 1 }, [], false)
  else if ids.isEmpty then
    ({ st with skipped := st.skipped + 1 }, [], false)
  else
    let ledger' := if env.appendFails kmin then st.ledger else st.ledger ++ ids
    let st1 := { st with ledger := ledger', startedSet := st.startedSet ++ ids }
    if env.configFails kmin then
      ({ st1 with errors := st1.errors + 1 }, [Ev.appendStarted kmin ids], false)
    else
      match env.qsub kmin with
      | QsubRes.ok =>
          ({ st1 with
              submitted := st1.submitted + 1,
              submittedRanges := st1.submittedRanges ++ [(kmin, kmaxActual)] },
           [Ev.appendStarted kmin ids, Ev.submitAttempt kmin ids], false)
      | QsubRes.notFound =>
          ({ st1 with errors := st1.errors + 1 },
           [Ev.appendStarted kmin ids, Ev.submitAttempt kmin ids], true)
      | QsubRes.rejected =>
          ({ st1 with errors := st1.errors + 1 },
           [Ev.appendStarted kmin ids, Ev.submitAttempt kmin ids], false)

/-- The Dispatcher main loop over the remaining `kmin`s: stops when
`submitted_count >= MAX_JOBS` or when a step `break`s. -/
def dispatchLoop (env : Env) (n maxK span maxJobs : Nat) :
    DispState → List Nat → DispState × List Ev
  | st, [] => (st, [])
  | st, kmin :: rest =>
    if maxJobs ≤ st.submitted then (st, [])
    else
      let s := dispatchStep env n maxK span st kmin
      if s.2.2 then (s.1, s.2.1)
      else
        let r := dispatchLoop env n maxK span maxJobs s.1 rest
        (r.1, s.2.1 ++ r.2)

/-- A full Dispatcher run: load `started_ids_set` from the ledger file
(`startedFile` as its list of non-blank stripped lines), then iterate
`range(1, maxK, span)`. -/
def runDispatcher (env : Env) (n maxK span maxJobs : Nat)
    (startedFile : List String) : DispState × List Ev :=
  dispatchLoop env n maxK span maxJobs
    { ledger := startedFile, startedSet := startedFile,
      submitted := 0, skipped := 0, errors := 0, submittedRanges := [] }
    (pyRange 1 maxK span)

/-! ## Archiver (`archive_completed_results.py` archiving block)

`tarfile.open(..., mode)` then `tar.add` each file in order; on the
first failing `add` the `except` clause clears
`files_to_remove_post_archive`, so the removal loop deletes nothing.
On success every archived file is unlinked (per-file `OSError` is
caught and counted, the loop continues). -/

/-- The `tar.add` loop: adds entries in order until one write fails;
returns the archive contents after the loop together with the success
flag (`false` iff an exception was raised). -/
def tarAddAll (writeFails : String → Bool) :
    List String → List String → List String × Bool
  | archive, [] => (archive, true)
  | archive, f :: rest =>
    if writeFails f then (archive, false)
    else tarAddAll writeFails (archive ++ [f]) rest

/-- The removal loop over `files_to_remove_post_archive`: unlink each
file still on disk; an `OSError` on one file is counted and the loop
continues.  Returns `(disk, removedCount, failedCount)`. -/
def removeLoop (removeFails : String → Bool) :
    List String → List String → List String × Nat × Nat
  | disk, [] => (disk, 0, 0)
  | disk, f :: rest =>
    if f ∈ disk then
      if removeFails f then
        let r := removeLoop removeFails disk rest
        (r.1, r.2.1, r.2.2 + 1)
      else
        let r := removeLoop removeFails (disk.erase f) rest
        (r.1, r.2.1 + 1, r.2.2)
    else removeLoop removeFails disk rest

/-- Result of the archiving block: the source files still on disk, the
archive entries, and whether the archive operation reported failure. -/
structure ArchOutcome where
  disk : List String
  archive : List String
  removedCount : Nat
  failedRemovals : Nat
  archiveFailed : Bool
deriving DecidableEq, Repr

/-- The archiving block of `archive_completed_results.py` for a batch
`filesToArchive` of artifacts already classified Complete: add all of
them to the archive; if that succeeded, run the removal loop on
exactly those files; if it failed, `files_to_remove_post_archive` is
cleared and no file is removed. -/
def runArchiver (writeFails removeFails : String → Bool)
    (filesToArchive disk archive : List String) : ArchOutcome :=
  let added := tarAddAll writeFails archive filesToArchive
  if added.2 then
    let rem := removeLoop removeFails disk filesToArchive
    { disk := rem.1, archive := added.1, removedCount := rem.2.1,
      failedRemovals := rem.2.2, archiveFailed := false }
  else
    { disk := disk, archive := added.1, removedCount := 0,
      failedRemovals := 0, archiveFailed := true }

/-! ## Ledger files at the character level

`load_tracked_ids` reads the tracking file, strips each line and keeps
the non-blank ones as a set; `append_ids_to_file` appends
`f"{id_str}\n"` per ID.  A file is a character sequence here, so that
the line structure is derived, not assumed. -/

/-- The characters `str.strip()` removes (Python string whitespace). -/
def isPyWs (c : Char) : Bool :=
  c = ' ' || c = '\t' || c = '\n' || c = '\r' || c = '\x0b' || c = '\x0c'

/-- Python `str.strip()` on one line. -/
def pyStrip (l : List Char) : List Char :=
  ((l.dropWhile isPyWs).reverse.dropWhile isPyWs).reverse

/-- Split file content at `'\n'` characters.  `for line in f` yields
the pieces with their trailing newline kept (and omits a final empty
piece); since every line is stripped and blank lines are filtered out,
the resulting ID set is the same. -/
def splitNl : List Char → List (List Char)
  | [] => [[]]
  | c :: cs =>
    if c = '\n' then [] :: splitNl cs
    else
      match splitNl cs with
      | [] => [[c]]
      | l :: ls => (c :: l) :: ls

/-- Model of `load_tracked_ids` / `load_completed_ids`: the set of
non-blank stripped lines of the file (as a list with membership
semantics). -/
def load_tracked_ids (file : List Char) : List (List Char) :=
  ((splitNl file).map pyStrip).filter (fun l => decide (l ≠ []))

/-- Model of `append_ids_to_file`: writes `f"{id_str}\n"` for each ID,
in order, at the end of the file. -/
def append_ids_to_file (file : List Char) (ids : List (List Char)) : List Char :=
  file ++ (ids.map (fun id => id ++ ['\n'])).flatten

/-- A ledger file as the system ever produces it: empty (`touch`) or
ending in a newline (each append writes newline-terminated lines). -/
def validLedger (file : List Char) : Prop :=
  file = [] ∨ file.getLast? = some '\n'

/-- A canonical ID string is non-empty and contains no whitespace
character (true of every `f"{n}_{k}"`). -/
def cleanId (id : List Char) : Prop :=
  id ≠ [] ∧ ∀ c ∈ id, isPyWs c = false

instance : DecidablePred validLedger := fun _ => by
  unfold validLedger; infer_instance

instance : DecidablePred cleanId := fun _ => by
  unfold cleanId; infer_instance

/-- Temporal ordering property of a Dispatcher event trace: every
`qsub` invocation for a range is preceded, strictly earlier in the
trace, by the `append_ids_to_file` invocation that records that
range's constituent IDs in the `Started` ledger. -/
def appendBeforeSubmit (tr : List Ev) : Prop :=
  ∀ (i : Nat) kmin ids, tr[i]? = some (Ev.submitAttempt kmin ids) →
    ∃ j : Nat, j < i ∧ tr[j]? = some (Ev.appendStarted kmin ids)

/-! ## Arithmetic of `pyRange` -/

theorem pyRange_length (a b s : Nat) :
    (pyRange a b s).length = (b - a + s - 1) / s := by
  simp [pyRange]

theorem mem_pyRange_iff {a b s x : Nat} (hs : 0 < s) :
    x ∈ pyRange a b s ↔ ∃ i, x = a + i * s ∧ a + i * s < b := by
  unfold pyRange
  simp only [List.mem_map, List.mem_range]
  constructor
  · rintro ⟨i, hi, rfl⟩
    refine ⟨i, rfl, ?_⟩
    have h1 : i + 1 ≤ (b - a + s - 1) / s := hi
    rw [Nat.le_div_iff_mul_le hs] at h1
    have h2 : (i + 1) * s = i * s + s := by ring
    rw [h2] at h1
    omega
  · rintro ⟨i, rfl, hb⟩
    refine ⟨i, ?_, rfl⟩
    have h1 : i + 1 ≤ (b - a + s - 1) / s := by
      rw [Nat.le_div_iff_mul_le hs]
      have h2 : (i + 1) * s = i * s + s := by ring
      rw [h2]
      omega
    omega

theorem pyRange_le_of_mem {a b s x : Nat} (hs : 0 < s)
    (hx : x ∈ pyRange a b s) : a ≤ x := by
  obtain ⟨i, rfl, -⟩ := (mem_pyRange_iff hs).mp hx
  omega

theorem pyRange_lt_of_mem {a b s x : Nat} (hs : 0 < s)
    (hx : x ∈ pyRange a b s) : x < b := by
  obtain ⟨i, rfl, h⟩ := (mem_pyRange_iff hs).mp hx
  exact h

theorem pyRange_mod_of_mem {a b s x : Nat} (hs : 0 < s)
    (hx : x ∈ pyRange a b s) : x % s = a % s := by
  obtain ⟨i, rfl, -⟩ := (mem_pyRange_iff hs).mp hx
  exact Nat.add_mul_mod_self_right a i s

theorem pyRange_cover {a b s x : Nat} (hs : 0 < s) (h1 : a ≤ x) (h2 : x < b) :
    ∃ k ∈ pyRange a b s, k ≤ x ∧ x < k + s := by
  refine ⟨a + (x - a) / s * s, ?_, ?_, ?_⟩
  · refine (mem_pyRange_iff hs).mpr ⟨(x - a) / s, rfl, ?_⟩
    have h3 : (x - a) / s * s ≤ x - a := Nat.div_mul_le_self (x - a) s
    omega
  · have h3 : (x - a) / s * s ≤ x - a := Nat.div_mul_le_self (x - a) s
    omega
  · have h4 : s * ((x - a) / s) + (x - a) % s = x - a := Nat.div_add_mod (x - a) s
    have h5 : (x - a) % s < s := Nat.mod_lt (x - a) hs
    have h6 : (x - a) / s * s = s * ((x - a) / s) := Nat.mul_comm _ _
    omega

theorem pyRange_pairwise_add {a b s : Nat} :
    (pyRange a b s).Pairwise (fun x y => x + s ≤ y) := by
  unfold pyRange
  refine List.Pairwise.map _ (fun i j (hij : i < j) => ?_) (List.pairwise_lt_range _)
  have h1 : (i + 1) * s ≤ j * s := Nat.mul_le_mul_right s hij
  have h2 : (i + 1) * s = i * s + s := by ring
  omega

theorem pyRange_pairwise_lt {a b s : Nat} (hs : 0 < s) :
    (pyRange a b s).Pairwise (· < ·) :=
  pyRange_pairwise_add.imp (fun h => by omega)

/-! ## Properties of the partition (`for kmin in range(1, MAX_K, span)`) -/

theorem partitionRanges_bounds {maxK span : Nat} (hs : 0 < span)
    {p : Nat × Nat} (hp : p ∈ partitionRanges maxK span) :
    1 ≤ p.1 ∧ p.1 < maxK ∧ p.2 ≤ maxK ∧ p.2 - p.1 ≤ span := by
  unfold partitionRanges at hp
  obtain ⟨k, hk, rfl⟩ := List.mem_map.mp hp
  refine ⟨pyRange_le_of_mem hs hk, pyRange_lt_of_mem hs hk, ?_, ?_⟩
  · exact Nat.min_le_right _ _
  · have := Nat.min_le_left (k + span) maxK
    omega

theorem partitionRanges_pairwise_le {maxK span : Nat} :
    (partitionRanges maxK span).Pairwise (fun p q => p.2 ≤ q.1) := by
  unfold partitionRanges
  refine List.Pairwise.map _ (fun x y (hxy : x + span ≤ y) => ?_) pyRange_pairwise_add
  have := Nat.min_le_left (x + span) maxK
  omega

theorem partitionRanges_pairwise_lt {maxK span : Nat} (hs : 0 < span) :
    (partitionRanges maxK span).Pairwise (fun p q => p.1 < q.1) := by
  unfold partitionRanges
  exact List.Pairwise.map _ (fun x y (hxy : x < y) => hxy) (pyRange_pairwise_lt hs)

theorem partitionRanges_cover {maxK span : Nat} (hs : 0 < span)
    {x : Nat} (h1 : 1 ≤ x) (h2 : x < maxK) :
    ∃ p ∈ partitionRanges maxK span, p.1 ≤ x ∧ x < p.2 := by
  obtain ⟨k, hk, hkx, hxk⟩ := pyRange_cover hs h1 h2
  exact ⟨(k, min (k + span) maxK), List.mem_map.mpr ⟨k, hk, rfl⟩, hkx,
    lt_min hxk h2⟩

/-- C6: for every total size `N` and positive batch width `W`, the
ranges produced by the Dispatcher partition (`kmin` starting at 1,
advancing by `W * K_STEP`, `kmax` clipped to `N / 2`) have `kmin` in
`[1, N/2)`, `kmax ≤ N/2`, width at most `W * K_STEP`; they are in
strictly increasing `kmin` order and pairwise non-overlapping; and
every `x` in `[1, N/2)` lies in one of them — so they cover `[1, N/2)`
exactly once. -/
theorem partition_covers_exactly_once (N W : Nat) (hW : 0 < W) :
    (∀ p ∈ partitionRanges (N / 2) (W * K_STEP),
        1 ≤ p.1 ∧ p.1 < N / 2 ∧ p.2 ≤ N / 2 ∧ p.2 - p.1 ≤ W * K_STEP) ∧
    (partitionRanges (N / 2) (W * K_STEP)).Pairwise (fun p q => p.1 < q.1) ∧
    (partitionRanges (N / 2) (W * K_STEP)).Pairwise (fun p q => p.2 ≤ q.1) ∧
    (∀ x, 1 ≤ x → x < N / 2 →
        ∃ p ∈ partitionRanges (N / 2) (W * K_STEP), p.1 ≤ x ∧ x < p.2) := by
  have hs : 0 < W * K_STEP := by unfold K_STEP; omega
  exact ⟨fun p hp => partitionRanges_bounds hs hp,
    partitionRanges_pairwise_lt hs,
    partitionRanges_pairwise_le,
    fun x h1 h2 => partitionRanges_cover hs h1 h2⟩

/-- Witness for C6 at `N = 16`, `W = 2`: the ranges `[1,5)` and
`[5,8)`. -/
theorem partition_covers_exactly_once_witness :
    (∀ p ∈ partitionRanges (16 / 2) (2 * K_STEP),
        1 ≤ p.1 ∧ p.1 < 16 / 2 ∧ p.2 ≤ 16 / 2 ∧ p.2 - p.1 ≤ 2 * K_STEP) ∧
    (partitionRanges (16 / 2) (2 * K_STEP)).Pairwise (fun p q => p.1 < q.1) ∧
    (partitionRanges (16 / 2) (2 * K_STEP)).Pairwise (fun p q => p.2 ≤ q.1) ∧
    (∀ x, 1 ≤ x → x < 16 / 2 →
        ∃ p ∈ partitionRanges (16 / 2) (2 * K_STEP), p.1 ≤ x ∧ x < p.2) :=
  partition_covers_exactly_once 16 2 (by decide)

/-- C7: for every range with `kmin < kmax` and positive step, the
enumeration has exactly `(kmax - kmin + step - 1) / step` elements
(the reconciler's expected-count formula), that count is the ceiling
of `(kmax - kmin) / step` (smallest `c` with `kmax - kmin ≤ c * step`),
every enumerated `k` lies in `[kmin, kmax)` with
`k ≡ kmin (mod step)`, and the ID list has one ID per such `k`. -/
theorem enumerate_range_count (n kmin kmax step : Nat)
    (hs : 0 < step) (h : kmin < kmax) :
    (enumerateRange n kmin kmax step).length = (kmax - kmin + step - 1) / step ∧
    kmax - kmin ≤ (enumerateRange n kmin kmax step).length * step ∧
    ((enumerateRange n kmin kmax step).length - 1) * step < kmax - kmin ∧
    (∀ k ∈ pyRange kmin kmax step, kmin ≤ k ∧ k < kmax ∧ k % step = kmin % step) ∧
    (enumerateRange n kmin kmax step).length = (pyRange kmin kmax step).length := by
  have hlen : (enumerateRange n kmin kmax step).length
      = (kmax - kmin + step - 1) / step := by
    simp [enumerateRange, pyRange]
  refine ⟨hlen, ?_, ?_,
    fun k hk => ⟨pyRange_le_of_mem hs hk, pyRange_lt_of_mem hs hk,
      pyRange_mod_of_mem hs hk⟩,
    by simp [enumerateRange]⟩
  · rw [hlen]
    have h4 := Nat.div_add_mod (kmax - kmin + step - 1) step
    have h5 := Nat.mod_lt (kmax - kmin + step - 1) hs
    have h6 : (kmax - kmin + step - 1) / step * step
        = step * ((kmax - kmin + step - 1) / step) := Nat.mul_comm _ _
    omega
  · rw [hlen]
    have h4 := Nat.div_add_mod (kmax - kmin + step - 1) step
    have h5 := Nat.mod_lt (kmax - kmin + step - 1) hs
    have h7 : ((kmax - kmin + step - 1) / step - 1) * step
        = (kmax - kmin + step - 1) / step * step - 1 * step := Nat.sub_mul _ _ _
    have h6 : (kmax - kmin + step - 1) / step * step
        = step * ((kmax - kmin + step - 1) / step) := Nat.mul_comm _ _
    omega

/-- Witness for C7 at `n = 16`, range `[1, 8)`, step 2: four IDs. -/
theorem enumerate_range_count_witness :
    (enumerateRange 16 1 8 2).length = (8 - 1 + 2 - 1) / 2 ∧
    8 - 1 ≤ (enumerateRange 16 1 8 2).length * 2 ∧
    ((enumerateRange 16 1 8 2).length - 1) * 2 < 8 - 1 ∧
    (∀ k ∈ pyRange 1 8 2, 1 ≤ k ∧ k < 8 ∧ k % 2 = 1 % 2) ∧
    (enumerateRange 16 1 8 2).length = (pyRange 1 8 2).length :=
  enumerate_range_count 16 1 8 2 (by decide) (by decide)

/-! ## CompletionReconciler -/

/-- C4: `check_range_completion` classifies an invalid range
(`kmin >= kmax`) as not complete with an empty missing list; for a
valid range it reports complete iff every constituent ID of
`[kmin, kmax)` is in the completed set, and its missing list is
exactly the constituent IDs absent from the set, in increasing `k`
order.  Concretely, for artifact `uni_1024_1_9` the classification is
complete iff the four IDs `1024_1 .. 1024_7` are all present, and
removing any one of them yields incomplete with exactly that ID
missing. -/
theorem check_range_completion_correct :
    (∀ n kmin kmax completed, kmax ≤ kmin →
        check_range_completion n kmin kmax completed = (false, [])) ∧
    (∀ n kmin kmax completed, kmin < kmax →
        ((check_range_completion n kmin kmax completed).1 = true ↔
          ∀ id ∈ enumerateRange n kmin kmax K_STEP, id ∈ completed)) ∧
    (∀ n kmin kmax completed, kmin < kmax →
        (check_range_completion n kmin kmax completed).2 =
          ((pyRange kmin kmax K_STEP).filter
            (fun k => decide (idStr n k ∉ completed))).map (idStr n) ∧
        (pyRange kmin kmax K_STEP).Pairwise (· < ·)) ∧
    (∀ completed : List String,
        (check_range_completion 1024 1 9 completed).1 = true ↔
          ∀ id ∈ ["1024_1", "1024_3", "1024_5", "1024_7"], id ∈ completed) ∧
    (∀ id ∈ ["1024_1", "1024_3", "1024_5", "1024_7"],
        check_range_completion 1024 1 9
          (["1024_1", "1024_3", "1024_5", "1024_7"].erase id) = (false, [id])) := by
  have hmain : ∀ (n kmin kmax : Nat) (completed : List String), kmin < kmax →
      ((check_range_completion n kmin kmax completed).1 = true ↔
        ∀ id ∈ enumerateRange n kmin kmax K_STEP, id ∈ completed) := by
    intro n kmin kmax completed h
    unfold check_range_completion
    rw [if_neg (by omega)]
    simp [List.isEmpty_iff, List.filter_eq_nil_iff]
  refine ⟨?_, hmain, ?_, ?_, by decide⟩
  · intro n kmin kmax completed h
    unfold check_range_completion
    rw [if_pos h]
  · intro n kmin kmax completed h
    constructor
    · unfold check_range_completion
      rw [if_neg (by omega)]
      unfold enumerateRange
      exact List.filter_map (idStr n) (pyRange kmin kmax K_STEP)
    · exact pyRange_pairwise_lt (by decide)
  · intro completed
    rw [hmain 1024 1 9 completed (by decide)]
    rw [show enumerateRange 1024 1 9 K_STEP
      = ["1024_1", "1024_3", "1024_5", "1024_7"] from by decide]

/-- Witness for C4: the invalid range `[9, 9)`, a fully completed
`uni_1024_1_9`, and removal of `1024_3`. -/
theorem check_range_completion_correct_witness :
    check_range_completion 1024 9 9 ["1024_1"] = (false, []) ∧
    ((check_range_completion 1024 1 9
        ["1024_1", "1024_3", "1024_5", "1024_7"]).1 = true ↔
      ∀ id ∈ enumerateRange 1024 1 9 K_STEP,
        id ∈ ["1024_1", "1024_3", "1024_5", "1024_7"]) ∧
    ((check_range_completion 1024 1 9 ["1024_5"]).2 =
        ((pyRange 1 9 K_STEP).filter
          (fun k => decide (idStr 1024 k ∉ ["1024_5"]))).map (idStr 1024) ∧
      (pyRange 1 9 K_STEP).Pairwise (· < ·)) ∧
    ((check_range_completion 1024 1 9 ["1024_7"]).1 = true ↔
      ∀ id ∈ ["1024_1", "1024_3", "1024_5", "1024_7"], id ∈ ["1024_7"]) ∧
    check_range_completion 1024 1 9
      (["1024_1", "1024_3", "1024_5", "1024_7"].erase "1024_3")
      = (false, ["1024_3"]) :=
  ⟨check_range_completion_correct.1 1024 9 9 ["1024_1"] (by decide),
   check_range_completion_correct.2.1 1024 1 9 _ (by decide),
   check_range_completion_correct.2.2.1 1024 1 9 ["1024_5"] (by decide),
   check_range_completion_correct.2.2.2.1 ["1024_7"],
   check_range_completion_correct.2.2.2.2 "1024_3" (by decide)⟩

/-! ## Archiver -/

theorem tarAddAll_snd_false {writeFails : String → Bool}
    {files : List String} (hfail : ∃ f ∈ files, writeFails f = true) :
    ∀ archive, (tarAddAll writeFails archive files).2 = false := by
  induction files with
  | nil => simp at hfail
  | cons f rest ih =>
    intro archive
    unfold tarAddAll
    by_cases hf : writeFails f = true
    · rw [if_pos hf]
    · rw [if_neg hf]
      refine ih ?_ _
      obtain ⟨g, hg, hgw⟩ := hfail
      rcases List.mem_cons.mp hg with rfl | hg'
      · exact absurd hgw hf
      · exact ⟨g, hg', hgw⟩

/-- C1: if writing any artifact of the batch into the archive fails,
the archiving run deletes no source file (the disk is unchanged, zero
removals) and reports failure. -/
theorem archiver_failure_no_deletion (writeFails removeFails : String → Bool)
    (filesToArchive disk archive : List String)
    (hfail : ∃ f ∈ filesToArchive, writeFails f = true) :
    (runArchiver writeFails removeFails filesToArchive disk archive).disk = disk ∧
    (runArchiver writeFails removeFails filesToArchive disk archive).removedCount = 0 ∧
    (runArchiver writeFails removeFails filesToArchive disk archive).archiveFailed = true := by
  have h := tarAddAll_snd_false hfail archive
  unfold runArchiver
  simp only [h]
  exact ⟨rfl, rfl, rfl⟩

/-- Witness for C1: a batch of three artifacts where the write of the
second is forced to fail; none of the three is deleted. -/
theorem archiver_failure_no_deletion_witness :
    (runArchiver (fun f => decide (f = "uni_16_5_8.txt")) (fun _ => false)
      ["uni_16_1_5.txt", "uni_16_5_8.txt", "uni_16_9_13.txt"]
      ["uni_16_1_5.txt", "uni_16_5_8.txt", "uni_16_9_13.txt"] []).disk
      = ["uni_16_1_5.txt", "uni_16_5_8.txt", "uni_16_9_13.txt"] ∧
    (runArchiver (fun f => decide (f = "uni_16_5_8.txt")) (fun _ => false)
      ["uni_16_1_5.txt", "uni_16_5_8.txt", "uni_16_9_13.txt"]
      ["uni_16_1_5.txt", "uni_16_5_8.txt", "uni_16_9_13.txt"] []).removedCount = 0 ∧
    (runArchiver (fun f => decide (f = "uni_16_5_8.txt")) (fun _ => false)
      ["uni_16_1_5.txt", "uni_16_5_8.txt", "uni_16_9_13.txt"]
      ["uni_16_1_5.txt", "uni_16_5_8.txt", "uni_16_9_13.txt"] []).archiveFailed = true :=
  archiver_failure_no_deletion _ _ _ _ _ (by decide)

/-! ## RangePlanner / Dispatcher -/

theorem any_mem_eq_true {ids l : List String}
    (h : ∃ id ∈ ids, id ∈ l) :
    (ids.any fun id => decide (id ∈ l)) = true := by
  rw [List.any_eq_true]
  obtain ⟨id, hid, hmem⟩ := h
  exact ⟨id, hid, decide_eq_true hmem⟩

theorem any_mem_eq_false {ids l : List String}
    (h : ∀ id ∈ ids, id ∉ l) :
    (ids.any fun id => decide (id ∈ l)) = false := by
  rw [List.any_eq_false]
  intro id hid
  simpa using h id hid

/-- C2: in the Dispatcher main loop, a range any of whose constituent
IDs is already in the Started set is skipped entirely — counted as
skipped, ledger and in-memory set untouched, nothing submitted, no
events — while a range none of whose IDs is started (and which is
non-empty) is claimed whole: all its IDs are appended to the in-memory
Started set, it is not counted as skipped, and the ledger append for
the full ID list is invoked. -/
theorem planner_skips_partially_started (env : Env) (n maxK span : Nat)
    (st : DispState) (kmin : Nat) :
    ((∃ id ∈ rangeIdsOf n maxK span kmin, id ∈ st.startedSet) →
        dispatchStep env n maxK span st kmin
          = ({ st with skipped := st.skipped + 1 }, [], false)) ∧
    (rangeIdsOf n maxK span kmin ≠ [] →
      (∀ id ∈ rangeIdsOf n maxK span kmin, id ∉ st.startedSet) →
        (dispatchStep env n maxK span st kmin).1.startedSet
            = st.startedSet ++ rangeIdsOf n maxK span kmin ∧
        (dispatchStep env n maxK span st kmin).1.skipped = st.skipped ∧
        Ev.appendStarted kmin (rangeIdsOf n maxK span kmin)
            ∈ (dispatchStep env n maxK span st kmin).2.1) := by
  constructor
  · intro h
    unfold dispatchStep
    simp only [any_mem_eq_true h, if_true]
  · intro hne hnot
    have hany := any_mem_eq_false hnot
    have hemp : (rangeIdsOf n maxK span kmin).isEmpty = false := by
      cases hcase : rangeIdsOf n maxK span kmin with
      | nil => exact absurd hcase hne
      | cons a l => simp [List.isEmpty]
    unfold dispatchStep
    simp only [hany, Bool.false_eq_true, if_false, hemp]
    by_cases hc : env.configFails kmin = true
    · simp [hc]
    · rw [Bool.not_eq_true] at hc
      cases hq : env.qsub kmin <;> simp [hc, hq]

/-- Decomposition of one Dispatcher step used by the run-level
theorems: the Started set and the ledger only grow, and a range enters
`submittedRanges` only when none of its IDs was in the Started set,
its ID list is non-empty, and (absent an append I/O failure) its IDs
went into the ledger. -/
theorem dispatchStep_spec (env : Env) (n maxK span : Nat)
    (st : DispState) (kmin : Nat) :
    st.startedSet ⊆ (dispatchStep env n maxK span st kmin).1.startedSet ∧
    st.ledger ⊆ (dispatchStep env n maxK span st kmin).1.ledger ∧
    ((dispatchStep env n maxK span st kmin).1.submittedRanges
        = st.submittedRanges ∨
      ((dispatchStep env n maxK span st kmin).1.submittedRanges
          = st.submittedRanges ++ [(kmin, min (kmin + span) maxK)] ∧
        rangeIdsOf n maxK span kmin ≠ [] ∧
        (∀ id ∈ rangeIdsOf n maxK span kmin, id ∉ st.startedSet) ∧
        (env.appendFails kmin = false →
          (dispatchStep env n maxK span st kmin).1.ledger
            = st.ledger ++ rangeIdsOf n maxK span kmin))) := by
  unfold dispatchStep
  by_cases hany : (rangeIdsOf n maxK span kmin).any
      (fun id => decide (id ∈ st.startedSet)) = true
  · simp [hany]
  · rw [Bool.not_eq_true] at hany
    have hnot : ∀ id ∈ rangeIdsOf n maxK span kmin, id ∉ st.startedSet := by
      intro id hid
      rw [List.any_eq_false] at hany
      simpa using hany id hid
    by_cases hemp : (rangeIdsOf n maxK span kmin).isEmpty = true
    · simp [hany, hemp]
    · rw [Bool.not_eq_true] at hemp
      have hne : rangeIdsOf n maxK span kmin ≠ [] := by
        intro hcase
        rw [hcase] at hemp
        simp [List.isEmpty] at hemp
      by_cases happ : env.appendFails kmin = true
      · by_cases hc : env.configFails kmin = true
        · simp [hany, hemp, happ, hc, List.subset_append_left]
        · rw [Bool.not_eq_true] at hc
          cases hq : env.qsub kmin <;>
            (simp [hany, hemp, happ, hc, hq, List.subset_append_left, hne, hnot];
             try exact hnot)
      · rw [Bool.not_eq_true] at happ
        by_cases hc : env.configFails kmin = true
        · simp [hany, hemp, happ, hc, List.subset_append_left]
        · rw [Bool.not_eq_true] at hc
          cases hq : env.qsub kmin <;>
            (simp [hany, hemp, happ, hc, hq, List.subset_append_left, hne, hnot];
             try exact hnot)

/-- Witness for C2: with `n = 16`, `maxK = 8`, `span = 4`, the range
at `kmin = 1` has IDs `16_1, 16_3`; a Started set holding `16_1` makes
the whole range skipped, the empty Started set lets it be claimed. -/
theorem planner_skips_partially_started_witness :
    (dispatchStep ⟨fun _ => false, fun _ => false, fun _ => QsubRes.ok⟩ 16 8 4
        ⟨["16_1"], ["16_1"], 0, 0, 0, []⟩ 1
      = ({ ledger := ["16_1"], startedSet := ["16_1"], submitted := 0,
           skipped := 1, errors := 0, submittedRanges := [] }, [], false)) ∧
    ((dispatchStep ⟨fun _ => false, fun _ => false, fun _ => QsubRes.ok⟩ 16 8 4
        ⟨[], [], 0, 0, 0, []⟩ 1).1.startedSet = [] ++ rangeIdsOf 16 8 4 1 ∧
     (dispatchStep ⟨fun _ => false, fun _ => false, fun _ => QsubRes.ok⟩ 16 8 4
        ⟨[], [], 0, 0, 0, []⟩ 1).1.skipped = 0 ∧
     Ev.appendStarted 1 (rangeIdsOf 16 8 4 1)
        ∈ (dispatchStep ⟨fun _ => false, fun _ => false, fun _ => QsubRes.ok⟩ 16 8 4
            ⟨[], [], 0, 0, 0, []⟩ 1).2.1) :=
  ⟨(planner_skips_partially_started _ 16 8 4 _ 1).1 (by decide),
   (planner_skips_partially_started _ 16 8 4 _ 1).2 (by decide) (by decide)⟩

theorem dispatchLoop_nil (env : Env) (n maxK span maxJobs : Nat)
    (st : DispState) :
    dispatchLoop env n maxK span maxJobs st [] = (st, []) := rfl

theorem dispatchLoop_cons (env : Env) (n maxK span maxJobs : Nat)
    (st : DispState) (kmin : Nat) (rest : List Nat) :
    dispatchLoop env n maxK span maxJobs st (kmin :: rest) =
      if maxJobs ≤ st.submitted then (st, [])
      else if (dispatchStep env n maxK span st kmin).2.2 then
        ((dispatchStep env n maxK span st kmin).1,
         (dispatchStep env n maxK span st kmin).2.1)
      else
        ((dispatchLoop env n maxK span maxJobs
            (dispatchStep env n maxK span st kmin).1 rest).1,
         (dispatchStep env n maxK span st kmin).2.1 ++
           (dispatchLoop env n maxK span maxJobs
             (dispatchStep env n maxK span st kmin).1 rest).2) := rfl

/-- Run-level invariant: relative to any set `S` below the current
Started set, every range the loop ever submits has some constituent ID
outside `S`, and the Started set keeps containing `S`. -/
theorem dispatchLoop_submitted_spec (env : Env) (n maxK span maxJobs : Nat)
    (S : List String) :
    ∀ (kmins : List Nat) (st : DispState),
      S ⊆ st.startedSet →
      (∀ p ∈ st.submittedRanges, ∃ id ∈ rangeIdsOf n maxK span p.1, id ∉ S) →
      S ⊆ (dispatchLoop env n maxK span maxJobs st kmins).1.startedSet ∧
      ∀ p ∈ (dispatchLoop env n maxK span maxJobs st kmins).1.submittedRanges,
        ∃ id ∈ rangeIdsOf n maxK span p.1, id ∉ S := by
  intro kmins
  induction kmins with
  | nil => intro st h1 h2; exact ⟨h1, h2⟩
  | cons kmin rest ih =>
    intro st h1 h2
    rw [dispatchLoop_cons]
    by_cases hcap : maxJobs ≤ st.submitted
    · rw [if_pos hcap]; exact ⟨h1, h2⟩
    · rw [if_neg hcap]
      obtain ⟨hs1, hs2, hs3⟩ := dispatchStep_spec env n maxK span st kmin
      have h1' : S ⊆ (dispatchStep env n maxK span st kmin).1.startedSet :=
        h1.trans hs1
      have h2' : ∀ p ∈ (dispatchStep env n maxK span st kmin).1.submittedRanges,
          ∃ id ∈ rangeIdsOf n maxK span p.1, id ∉ S := by
        rcases hs3 with heq | ⟨heq, hne, hnot, -⟩
        · rw [heq]; exact h2
        · rw [heq]
          intro p hp
          rcases List.mem_append.mp hp with hp' | hp'
          · exact h2 p hp'
          · rcases List.mem_singleton.mp hp'
            obtain ⟨a, l, hcase⟩ :
                ∃ a l, rangeIdsOf n maxK span kmin = a :: l := by
              cases hx : rangeIdsOf n maxK span kmin with
              | nil => exact absurd hx hne
              | cons a l => exact ⟨a, l, rfl⟩
            have hmem : a ∈ rangeIdsOf n maxK span kmin := by
              rw [hcase]; exact List.mem_cons_self a l
            exact ⟨a, hmem, fun ha => hnot a hmem (h1 ha)⟩
      by_cases hbrk : (dispatchStep env n maxK span st kmin).2.2 = true
      · rw [if_pos hbrk]; exact ⟨h1', h2'⟩
      · rw [if_neg hbrk]
        exact ih _ h1' h2'

/-- Run-level invariant under failure-free ledger appends: every range
the loop has submitted has all its constituent IDs in the ledger. -/
theorem dispatchLoop_ledger_spec (env : Env) (n maxK span maxJobs : Nat)
    (happ : ∀ k, env.appendFails k = false) :
    ∀ (kmins : List Nat) (st : DispState),
      (∀ p ∈ st.submittedRanges, ∀ id ∈ rangeIdsOf n maxK span p.1,
          id ∈ st.ledger) →
      ∀ p ∈ (dispatchLoop env n maxK span maxJobs st kmins).1.submittedRanges,
        ∀ id ∈ rangeIdsOf n maxK span p.1,
          id ∈ (dispatchLoop env n maxK span maxJobs st kmins).1.ledger := by
  intro kmins
  induction kmins with
  | nil => intro st h; exact h
  | cons kmin rest ih =>
    intro st h
    rw [dispatchLoop_cons]
    by_cases hcap : maxJobs ≤ st.submitted
    · rw [if_pos hcap]; exact h
    · rw [if_neg hcap]
      obtain ⟨hs1, hs2, hs3⟩ := dispatchStep_spec env n maxK span st kmin
      have h' : ∀ p ∈ (dispatchStep env n maxK span st kmin).1.submittedRanges,
          ∀ id ∈ rangeIdsOf n maxK span p.1,
            id ∈ (dispatchStep env n maxK span st kmin).1.ledger := by
        rcases hs3 with heq | ⟨heq, hne, hnot, hled⟩
        · rw [heq]
          intro p hp id hid
          exact hs2 (h p hp id hid)
        · rw [heq, hled (happ kmin)]
          intro p hp id hid
          rcases List.mem_append.mp hp with hp' | hp'
          · exact List.mem_append_left _ (h p hp' id hid)
          · rcases List.mem_singleton.mp hp'
            exact List.mem_append_right _ hid
      by_cases hbrk : (dispatchStep env n maxK span st kmin).2.2 = true
      · rw [if_pos hbrk]; exact h'
      · rw [if_neg hbrk]
        exact ih _ h'

/-- C3: running the Dispatcher a second time against the Started
ledger left by a first run whose ledger appends all succeeded submits
none of the ranges the first run submitted: each such range is fully
marked Started and the any-ID-started check rejects it. -/
theorem dispatcher_idempotent (env1 env2 : Env) (n maxK span maxJobs : Nat)
    (file : List String) (happ : ∀ k, env1.appendFails k = false) :
    ∀ p ∈ (runDispatcher env1 n maxK span maxJobs file).1.submittedRanges,
      p ∉ (runDispatcher env2 n maxK span maxJobs
            (runDispatcher env1 n maxK span maxJobs file).1.ledger).1.submittedRanges := by
  intro p hp1 hp2
  have hled : ∀ id ∈ rangeIdsOf n maxK span p.1,
      id ∈ (runDispatcher env1 n maxK span maxJobs file).1.ledger := by
    exact dispatchLoop_ledger_spec env1 n maxK span maxJobs happ
      (pyRange 1 maxK span) _ (by intro q hq; simp at hq) p hp1
  have h2 := (dispatchLoop_submitted_spec env2 n maxK span maxJobs
      ((runDispatcher env1 n maxK span maxJobs file).1.ledger)
      (pyRange 1 maxK span)
      { ledger := (runDispatcher env1 n maxK span maxJobs file).1.ledger,
        startedSet := (runDispatcher env1 n maxK span maxJobs file).1.ledger,
        submitted := 0, skipped := 0, errors := 0, submittedRanges := [] }
      (by intro x hx; exact hx)
      (by intro q hq; simp at hq)).2 p hp2
  obtain ⟨id, hid, hnot⟩ := h2
  exact hnot (hled id hid)

/-- Witness for C3: a clean first run over `n = 16`, `maxK = 8`,
`span = 4` submits the range `(1, 5)`; the second run does not. -/
theorem dispatcher_idempotent_witness :
    (1, 5) ∉ (runDispatcher ⟨fun _ => false, fun _ => false, fun _ => QsubRes.ok⟩
        16 8 4 128
        ((runDispatcher ⟨fun _ => false, fun _ => false, fun _ => QsubRes.ok⟩
          16 8 4 128 []).1.ledger)).1.submittedRanges :=
  dispatcher_idempotent ⟨fun _ => false, fun _ => false, fun _ => QsubRes.ok⟩
    ⟨fun _ => false, fun _ => false, fun _ => QsubRes.ok⟩ 16 8 4 128 []
    (fun _ => rfl) (1, 5) (by decide)

theorem appendBeforeSubmit_nil : appendBeforeSubmit [] := by
  intro i kmin ids h
  simp at h

theorem appendBeforeSubmit_append {t1 t2 : List Ev}
    (h1 : appendBeforeSubmit t1) (h2 : appendBeforeSubmit t2) :
    appendBeforeSubmit (t1 ++ t2) := by
  intro i kmin ids h
  by_cases hi : i < t1.length
  · rw [List.getElem?_append_left hi] at h
    obtain ⟨j, hj, hget⟩ := h1 i kmin ids h
    exact ⟨j, hj, by rw [List.getElem?_append_left (hj.trans hi)]; exact hget⟩
  · push_neg at hi
    rw [List.getElem?_append_right hi] at h
    obtain ⟨j, hj, hget⟩ := h2 _ kmin ids h
    refine ⟨j + t1.length, by omega, ?_⟩
    rw [List.getElem?_append_right (by omega)]
    simpa using hget

theorem appendBeforeSubmit_pair (km : Nat) (ids0 : List String) :
    appendBeforeSubmit [Ev.appendStarted km ids0, Ev.submitAttempt km ids0] := by
  intro i kmin' ids' h
  match i with
  | 0 => simp at h
  | 1 =>
    simp at h
    obtain ⟨rfl, rfl⟩ := h
    exact ⟨0, by omega, rfl⟩
  | (j + 2) => simp at h

theorem appendBeforeSubmit_single (km : Nat) (ids0 : List String) :
    appendBeforeSubmit [Ev.appendStarted km ids0] := by
  intro i kmin' ids' h
  match i with
  | 0 => simp at h
  | (j + 1) => simp at h

theorem dispatchStep_trace_shape (env : Env) (n maxK span : Nat)
    (st : DispState) (kmin : Nat) :
    (dispatchStep env n maxK span st kmin).2.1 = [] ∨
    (dispatchStep env n maxK span st kmin).2.1
      = [Ev.appendStarted kmin (rangeIdsOf n maxK span kmin)] ∨
    (dispatchStep env n maxK span st kmin).2.1
      = [Ev.appendStarted kmin (rangeIdsOf n maxK span kmin),
         Ev.submitAttempt kmin (rangeIdsOf n maxK span kmin)] := by
  unfold dispatchStep
  by_cases hany : (rangeIdsOf n maxK span kmin).any
      (fun id => decide (id ∈ st.startedSet)) = true
  · simp [hany]
  · rw [Bool.not_eq_true] at hany
    by_cases hemp : (rangeIdsOf n maxK span kmin).isEmpty = true
    · simp [hany, hemp]
    · rw [Bool.not_eq_true] at hemp
      by_cases hc : env.configFails kmin = true
      · simp [hany, hemp, hc]
      · rw [Bool.not_eq_true] at hc
        cases hq : env.qsub kmin <;> simp [hany, hemp, hc, hq]

theorem appendBeforeSubmit_step (env : Env) (n maxK span : Nat)
    (st : DispState) (kmin : Nat) :
    appendBeforeSubmit (dispatchStep env n maxK span st kmin).2.1 := by
  rcases dispatchStep_trace_shape env n maxK span st kmin with h | h | h <;> rw [h]
  · exact appendBeforeSubmit_nil
  · exact appendBeforeSubmit_single _ _
  · exact appendBeforeSubmit_pair _ _

theorem dispatchLoop_trace (env : Env) (n maxK span maxJobs : Nat) :
    ∀ (kmins : List Nat) (st : DispState),
      appendBeforeSubmit (dispatchLoop env n maxK span maxJobs st kmins).2 := by
  intro kmins
  induction kmins with
  | nil => intro st; exact appendBeforeSubmit_nil
  | cons kmin rest ih =>
    intro st
    rw [dispatchLoop_cons]
    by_cases hcap : maxJobs ≤ st.submitted
    · rw [if_pos hcap]; exact appendBeforeSubmit_nil
    · rw [if_neg hcap]
      by_cases hbrk : (dispatchStep env n maxK span st kmin).2.2 = true
      · rw [if_pos hbrk]; exact appendBeforeSubmit_step env n maxK span st kmin
      · rw [if_neg hbrk]
        exact appendBeforeSubmit_append
          (appendBeforeSubmit_step env n maxK span st kmin) (ih _)

/-- C5: in every Dispatcher run, every `qsub` invocation for a range
is preceded, strictly earlier in the run's event trace, by the
`append_ids_to_file` invocation recording that range's constituent IDs
in the Started ledger. -/
theorem submission_preceded_by_append (env : Env) (n maxK span maxJobs : Nat)
    (file : List String) :
    appendBeforeSubmit (runDispatcher env n maxK span maxJobs file).2 :=
  dispatchLoop_trace env n maxK span maxJobs _ _

/-- Witness for C5: in the clean run over `n = 16`, `maxK = 8`,
`span = 4`, the submission of range `[1, 5)` sits at trace index 1 and
its ledger append strictly before it. -/
theorem submission_preceded_by_append_witness :
    ∃ j : Nat, j < 1 ∧
      (runDispatcher ⟨fun _ => false, fun _ => false, fun _ => QsubRes.ok⟩
          16 8 4 128 []).2[j]?
        = some (Ev.appendStarted 1 ["16_1", "16_3"]) :=
  submission_preceded_by_append
    ⟨fun _ => false, fun _ => false, fun _ => QsubRes.ok⟩ 16 8 4 128 []
    1 1 ["16_1", "16_3"] (by decide)

/-- C9: Dispatcher failure granularity for a range that passed the
skip checks: a config-file write error counts one error, submits
nothing for that range, does not `break`, and the loop goes on to the
remaining ranges; a `qsub` `FileNotFoundError` counts one error and
`break`s — the loop result is exactly the state and events of this
step, so no further range is attempted; a `qsub` rejection
(`CalledProcessError`) counts one error, submits nothing, does not
`break`, and the loop goes on to the remaining ranges. -/
theorem dispatcher_failure_granularity (env : Env) (n maxK span maxJobs : Nat)
    (st : DispState) (kmin : Nat) (rest : List Nat)
    (hcap : st.submitted < maxJobs)
    (hnot : ∀ id ∈ rangeIdsOf n maxK span kmin, id ∉ st.startedSet)
    (hne : rangeIdsOf n maxK span kmin ≠ []) :
    (env.configFails kmin = true →
      (dispatchStep env n maxK span st kmin).1.errors = st.errors + 1 ∧
      (dispatchStep env n maxK span st kmin).1.submittedRanges
        = st.submittedRanges ∧
      (∀ ids, Ev.submitAttempt kmin ids
        ∉ (dispatchStep env n maxK span st kmin).2.1) ∧
      (dispatchStep env n maxK span st kmin).2.2 = false ∧
      dispatchLoop env n maxK span maxJobs st (kmin :: rest)
        = ((dispatchLoop env n maxK span maxJobs
              (dispatchStep env n maxK span st kmin).1 rest).1,
           (dispatchStep env n maxK span st kmin).2.1 ++
             (dispatchLoop env n maxK span maxJobs
               (dispatchStep env n maxK span st kmin).1 rest).2)) ∧
    (env.configFails kmin = false → env.qsub kmin = QsubRes.notFound →
      (dispatchStep env n maxK span st kmin).2.2 = true ∧
      (dispatchStep env n maxK span st kmin).1.errors = st.errors + 1 ∧
      (dispatchStep env n maxK span st kmin).1.submittedRanges
        = st.submittedRanges ∧
      dispatchLoop env n maxK span maxJobs st (kmin :: rest)
        = ((dispatchStep env n maxK span st kmin).1,
           (dispatchStep env n maxK span st kmin).2.1)) ∧
    (env.configFails kmin = false → env.qsub kmin = QsubRes.rejected →
      (dispatchStep env n maxK span st kmin).2.2 = false ∧
      (dispatchStep env n maxK span st kmin).1.errors = st.errors + 1 ∧
      (dispatchStep env n maxK span st kmin).1.submittedRanges
        = st.submittedRanges ∧
      dispatchLoop env n maxK span maxJobs st (kmin :: rest)
        = ((dispatchLoop env n maxK span maxJobs
              (dispatchStep env n maxK span st kmin).1 rest).1,
           (dispatchStep env n maxK span st kmin).2.1 ++
             (dispatchLoop env n maxK span maxJobs
               (dispatchStep env n maxK span st kmin).1 rest).2)) := by
  have hany := any_mem_eq_false hnot
  have hemp : (rangeIdsOf n maxK span kmin).isEmpty = false := by
    cases hcase : rangeIdsOf n maxK span kmin with
    | nil => exact absurd hcase hne
    | cons a l => simp [List.isEmpty]
  have hcap' : ¬ maxJobs ≤ st.submitted := by omega
  refine ⟨?_, ?_, ?_⟩
  · intro hc
    have hstep : dispatchStep env n maxK span st kmin
        = ({ st with
              ledger := if env.appendFails kmin then st.ledger
                else st.ledger ++ rangeIdsOf n maxK span kmin,
              startedSet := st.startedSet ++ rangeIdsOf n maxK span kmin,
              errors := st.errors + 1 },
           [Ev.appendStarted kmin (rangeIdsOf n maxK span kmin)], false) := by
      unfold dispatchStep
      simp [hany, hemp, hc]
    rw [dispatchLoop_cons, if_neg hcap', hstep]
    simp
  · intro hc hq
    have hstep : dispatchStep env n maxK span st kmin
        = ({ st with
              ledger := if env.appendFails kmin then st.ledger
                else st.ledger ++ rangeIdsOf n maxK span kmin,
              startedSet := st.startedSet ++ rangeIdsOf n maxK span kmin,
              errors := st.errors + 1 },
           [Ev.appendStarted kmin (rangeIdsOf n maxK span kmin),
            Ev.submitAttempt kmin (rangeIdsOf n maxK span kmin)], true) := by
      unfold dispatchStep
      simp [hany, hemp, hc, hq]
    rw [dispatchLoop_cons, if_neg hcap', hstep]
    simp
  · intro hc hq
    have hstep : dispatchStep env n maxK span st kmin
        = ({ st with
              ledger := if env.appendFails kmin then st.ledger
                else st.ledger ++ rangeIdsOf n maxK span kmin,
              startedSet := st.startedSet ++ rangeIdsOf n maxK span kmin,
              errors := st.errors + 1 },
           [Ev.appendStarted kmin (rangeIdsOf n maxK span kmin),
            Ev.submitAttempt kmin (rangeIdsOf n maxK span kmin)], false) := by
      unfold dispatchStep
      simp [hany, hemp, hc, hq]
    rw [dispatchLoop_cons, if_neg hcap', hstep]
    simp

/-- C10: when the Started-ledger append raises `IOError` for a range
(caught inside `append_ids_to_file`), the Dispatcher still proceeds:
the ledger file is unchanged, but the in-memory set is updated, the
config file is written, the job is submitted and counted, and the loop
is not aborted — a job is submitted whose constituent IDs were never
durably recorded as Started. -/
theorem append_failure_still_submits (env : Env) (n maxK span : Nat)
    (st : DispState) (kmin : Nat)
    (happ : env.appendFails kmin = true)
    (hc : env.configFails kmin = false)
    (hq : env.qsub kmin = QsubRes.ok)
    (hnot : ∀ id ∈ rangeIdsOf n maxK span kmin, id ∉ st.startedSet)
    (hne : rangeIdsOf n maxK span kmin ≠ []) :
    (dispatchStep env n maxK span st kmin).1.ledger = st.ledger ∧
    (dispatchStep env n maxK span st kmin).1.startedSet
      = st.startedSet ++ rangeIdsOf n maxK span kmin ∧
    (dispatchStep env n maxK span st kmin).1.submitted = st.submitted + 1 ∧
    (dispatchStep env n maxK span st kmin).1.submittedRanges
      = st.submittedRanges ++ [(kmin, min (kmin + span) maxK)] ∧
    Ev.submitAttempt kmin (rangeIdsOf n maxK span kmin)
      ∈ (dispatchStep env n maxK span st kmin).2.1 ∧
    (dispatchStep env n maxK span st kmin).2.2 = false := by
  have hany := any_mem_eq_false hnot
  have hemp : (rangeIdsOf n maxK span kmin).isEmpty = false := by
    cases hcase : rangeIdsOf n maxK span kmin with
    | nil => exact absurd hcase hne
    | cons a l => simp [List.isEmpty]
  unfold dispatchStep
  simp [hany, hemp, happ, hc, hq]

/-- Witness for C9: with `n = 16`, `maxK = 8`, `span = 4` and the
empty initial state, the three failure modes at `kmin = 1` with
remaining plan `[5]`. -/
theorem dispatcher_failure_granularity_witness :
    ((dispatchStep ⟨fun _ => false, fun _ => true, fun _ => QsubRes.ok⟩
        16 8 4 ⟨[], [], 0, 0, 0, []⟩ 1).1.errors = 1 ∧
     (dispatchStep ⟨fun _ => false, fun _ => true, fun _ => QsubRes.ok⟩
        16 8 4 ⟨[], [], 0, 0, 0, []⟩ 1).1.submittedRanges = [] ∧
     (∀ ids, Ev.submitAttempt 1 ids
        ∉ (dispatchStep ⟨fun _ => false, fun _ => true, fun _ => QsubRes.ok⟩
            16 8 4 ⟨[], [], 0, 0, 0, []⟩ 1).2.1) ∧
     (dispatchStep ⟨fun _ => false, fun _ => true, fun _ => QsubRes.ok⟩
        16 8 4 ⟨[], [], 0, 0, 0, []⟩ 1).2.2 = false ∧
     dispatchLoop ⟨fun _ => false, fun _ => true, fun _ => QsubRes.ok⟩
        16 8 4 128 ⟨[], [], 0, 0, 0, []⟩ [1, 5]
       = ((dispatchLoop ⟨fun _ => false, fun _ => true, fun _ => QsubRes.ok⟩
             16 8 4 128
             (dispatchStep ⟨fun _ => false, fun _ => true, fun _ => QsubRes.ok⟩
               16 8 4 ⟨[], [], 0, 0, 0, []⟩ 1).1 [5]).1,
          (dispatchStep ⟨fun _ => false, fun _ => true, fun _ => QsubRes.ok⟩
             16 8 4 ⟨[], [], 0, 0, 0, []⟩ 1).2.1 ++
            (dispatchLoop ⟨fun _ => false, fun _ => true, fun _ => QsubRes.ok⟩
              16 8 4 128
              (dispatchStep ⟨fun _ => false, fun _ => true, fun _ => QsubRes.ok⟩
                16 8 4 ⟨[], [], 0, 0, 0, []⟩ 1).1 [5]).2)) ∧
    ((dispatchStep ⟨fun _ => false, fun _ => false, fun _ => QsubRes.notFound⟩
        16 8 4 ⟨[], [], 0, 0, 0, []⟩ 1).2.2 = true ∧
     (dispatchStep ⟨fun _ => false, fun _ => false, fun _ => QsubRes.notFound⟩
        16 8 4 ⟨[], [], 0, 0, 0, []⟩ 1).1.errors = 1 ∧
     (dispatchStep ⟨fun _ => false, fun _ => false, fun _ => QsubRes.notFound⟩
        16 8 4 ⟨[], [], 0, 0, 0, []⟩ 1).1.submittedRanges = [] ∧
     dispatchLoop ⟨fun _ => false, fun _ => false, fun _ => QsubRes.notFound⟩
        16 8 4 128 ⟨[], [], 0, 0, 0, []⟩ [1, 5]
       = ((dispatchStep ⟨fun _ => false, fun _ => false, fun _ => QsubRes.notFound⟩
             16 8 4 ⟨[], [], 0, 0, 0, []⟩ 1).1,
          (dispatchStep ⟨fun _ => false, fun _ => false, fun _ => QsubRes.notFound⟩
             16 8 4 ⟨[], [], 0, 0, 0, []⟩ 1).2.1)) ∧
    ((dispatchStep ⟨fun _ => false, fun _ => false, fun _ => QsubRes.rejected⟩
        16 8 4 ⟨[], [], 0, 0, 0, []⟩ 1).2.2 = false ∧
     (dispatchStep ⟨fun _ => false, fun _ => false, fun _ => QsubRes.rejected⟩
        16 8 4 ⟨[], [], 0, 0, 0, []⟩ 1).1.errors = 1 ∧
     (dispatchStep ⟨fun _ => false, fun _ => false, fun _ => QsubRes.rejected⟩
        16 8 4 ⟨[], [], 0, 0, 0, []⟩ 1).1.submittedRanges = [] ∧
     dispatchLoop ⟨fun _ => false, fun _ => false, fun _ => QsubRes.rejected⟩
        16 8 4 128 ⟨[], [], 0, 0, 0, []⟩ [1, 5]
       = ((dispatchLoop ⟨fun _ => false, fun _ => false, fun _ => QsubRes.rejected⟩
             16 8 4 128
             (dispatchStep ⟨fun _ => false, fun _ => false, fun _ => QsubRes.rejected⟩
               16 8 4 ⟨[], [], 0, 0, 0, []⟩ 1).1 [5]).1,
          (dispatchStep ⟨fun _ => false, fun _ => false, fun _ => QsubRes.rejected⟩
             16 8 4 ⟨[], [], 0, 0, 0, []⟩ 1).2.1 ++
            (dispatchLoop ⟨fun _ => false, fun _ => false, fun _ => QsubRes.rejected⟩
              16 8 4 128
              (dispatchStep ⟨fun _ => false, fun _ => false, fun _ => QsubRes.rejected⟩
                16 8 4 ⟨[], [], 0, 0, 0, []⟩ 1).1 [5]).2)) :=
  ⟨(dispatcher_failure_granularity ⟨fun _ => false, fun _ => true, fun _ => QsubRes.ok⟩
      16 8 4 128 ⟨[], [], 0, 0, 0, []⟩ 1 [5]
      (by decide) (by decide) (by decide)).1 rfl,
   (dispatcher_failure_granularity
      ⟨fun _ => false, fun _ => false, fun _ => QsubRes.notFound⟩
      16 8 4 128 ⟨[], [], 0, 0, 0, []⟩ 1 [5]
      (by decide) (by decide) (by decide)).2.1 rfl rfl,
   (dispatcher_failure_granularity
      ⟨fun _ => false, fun _ => false, fun _ => QsubRes.rejected⟩
      16 8 4 128 ⟨[], [], 0, 0, 0, []⟩ 1 [5]
      (by decide) (by decide) (by decide)).2.2 rfl rfl⟩

/-- Witness for C10: forced append failure at `kmin = 1` with a clean
config write and a successful `qsub`: the job is submitted but the
ledger stays empty. -/
theorem append_failure_still_submits_witness :
    (dispatchStep ⟨fun _ => true, fun _ => false, fun _ => QsubRes.ok⟩
        16 8 4 ⟨[], [], 0, 0, 0, []⟩ 1).1.ledger = [] ∧
    (dispatchStep ⟨fun _ => true, fun _ => false, fun _ => QsubRes.ok⟩
        16 8 4 ⟨[], [], 0, 0, 0, []⟩ 1).1.startedSet
      = [] ++ rangeIdsOf 16 8 4 1 ∧
    (dispatchStep ⟨fun _ => true, fun _ => false, fun _ => QsubRes.ok⟩
        16 8 4 ⟨[], [], 0, 0, 0, []⟩ 1).1.submitted = 1 ∧
    (dispatchStep ⟨fun _ => true, fun _ => false, fun _ => QsubRes.ok⟩
        16 8 4 ⟨[], [], 0, 0, 0, []⟩ 1).1.submittedRanges
      = [] ++ [(1, min (1 + 4) 8)] ∧
    Ev.submitAttempt 1 (rangeIdsOf 16 8 4 1)
      ∈ (dispatchStep ⟨fun _ => true, fun _ => false, fun _ => QsubRes.ok⟩
          16 8 4 ⟨[], [], 0, 0, 0, []⟩ 1).2.1 ∧
    (dispatchStep ⟨fun _ => true, fun _ => false, fun _ => QsubRes.ok⟩
        16 8 4 ⟨[], [], 0, 0, 0, []⟩ 1).2.2 = false :=
  append_failure_still_submits ⟨fun _ => true, fun _ => false, fun _ => QsubRes.ok⟩
    16 8 4 ⟨[], [], 0, 0, 0, []⟩ 1 rfl rfl rfl (by decide) (by decide)

/-! ## Ledger round-trip -/

theorem splitNl_ne_nil : ∀ f : List Char, splitNl f ≠ [] := by
  intro f
  cases f with
  | nil => simp [splitNl]
  | cons c cs =>
    unfold splitNl
    by_cases hc : c = '\n'
    · simp [hc]
    · rw [if_neg hc]
      cases splitNl cs with
      | nil => simp
      | cons l ls => simp

theorem splitNl_cons_nl (g : List Char) :
    splitNl ('\n' :: g) = [] :: splitNl g := by
  conv_lhs => rw [splitNl]
  rw [if_pos rfl]

theorem splitNl_cons_other {c : Char} (hc : c ≠ '\n') (g : List Char)
    {l : List Char} {ls : List (List Char)} (hg : splitNl g = l :: ls) :
    splitNl (c :: g) = (c :: l) :: ls := by
  unfold splitNl
  rw [if_neg hc, hg]

theorem splitNl_no_nl_append : ∀ (p : List Char), (∀ c ∈ p, c ≠ '\n') →
    ∀ g, splitNl (p ++ '\n' :: g) = p :: splitNl g := by
  intro p
  induction p with
  | nil =>
    intro _ g
    exact splitNl_cons_nl g
  | cons c p' ih =>
    intro h g
    have hc : c ≠ '\n' := h c (List.mem_cons_self c p')
    have ih' := ih (fun d hd => h d (List.mem_cons_of_mem c hd)) g
    rw [List.cons_append]
    exact splitNl_cons_other hc _ ih'

theorem splitNl_length_ge_two : ∀ f : List Char, '\n' ∈ f →
    2 ≤ (splitNl f).length := by
  intro f
  induction f with
  | nil => intro h; simp at h
  | cons c cs ih =>
    intro h
    by_cases hc : c = '\n'
    · subst hc
      rw [splitNl_cons_nl]
      have := splitNl_ne_nil cs
      have : 1 ≤ (splitNl cs).length := by
        cases hx : splitNl cs with
        | nil => exact absurd hx (splitNl_ne_nil cs)
        | cons a b => simp
      simp
      omega
    · have hmem : '\n' ∈ cs := by
        rcases List.mem_cons.mp h with h' | h'
        · exact absurd h'.symm hc
        · exact h'
      obtain ⟨l, ls, hrep⟩ : ∃ l ls, splitNl cs = l :: ls := by
        cases hx : splitNl cs with
        | nil => exact absurd hx (splitNl_ne_nil cs)
        | cons a b => exact ⟨a, b, rfl⟩
      rw [splitNl_cons_other hc cs hrep]
      have := ih hmem
      rw [hrep] at this
      simpa using this

theorem splitNl_valid_append : ∀ f : List Char, validLedger f →
    ∀ g, splitNl (f ++ g) = (splitNl f).dropLast ++ splitNl g := by
  intro f
  induction f with
  | nil => intro _ g; simp [splitNl]
  | cons c f' ih =>
    intro hv g
    cases f' with
    | nil =>
      have hc : c = '\n' := by
        rcases hv with h | h
        · simp at h
        · simpa using h
      subst hc
      rw [List.cons_append, List.nil_append, splitNl_cons_nl,
        splitNl_cons_nl]
      simp [splitNl]
    | cons d f'' =>
      have hlast : (d :: f'').getLast? = some '\n' := by
        rcases hv with h | h
        · simp at h
        · rw [List.getLast?_cons_cons] at h
          exact h
      have hv' : validLedger (d :: f'') := Or.inr hlast
      have hnl : '\n' ∈ (d :: f'') := by
        obtain ⟨hne, heq⟩ := List.mem_getLast?_eq_getLast hlast
        rw [heq]
        exact List.getLast_mem hne
      have h2 := splitNl_length_ge_two _ hnl
      by_cases hc : c = '\n'
      · subst hc
        rw [List.cons_append, splitNl_cons_nl, splitNl_cons_nl, ih hv' g,
          List.dropLast_cons_of_ne_nil (splitNl_ne_nil _), List.cons_append]
      · obtain ⟨l₀, ls₀, hrep, hne₀⟩ :
            ∃ l₀ ls₀, splitNl (d :: f'') = l₀ :: ls₀ ∧ ls₀ ≠ [] := by
          cases hx : splitNl (d :: f'') with
          | nil => exact absurd hx (splitNl_ne_nil _)
          | cons a b =>
            cases b with
            | nil => rw [hx] at h2; simp at h2
            | cons b1 b2 => exact ⟨a, b1 :: b2, rfl, by simp⟩
        have hrec : splitNl ((d :: f'') ++ g)
            = l₀ :: (ls₀.dropLast ++ splitNl g) := by
          rw [ih hv' g, hrep, List.dropLast_cons_of_ne_nil hne₀,
            List.cons_append]
        rw [List.cons_append, splitNl_cons_other hc _ hrec,
          splitNl_cons_other hc _ hrep,
          List.dropLast_cons_of_ne_nil hne₀, List.cons_append]

theorem splitNl_flatten : ∀ ids : List (List Char),
    (∀ id ∈ ids, ∀ c ∈ id, c ≠ '\n') →
    splitNl ((ids.map (fun id => id ++ ['\n'])).flatten) = ids ++ [[]] := by
  intro ids
  induction ids with
  | nil => intro _; simp [splitNl]
  | cons id rest ih =>
    intro h
    have hid : ∀ c ∈ id, c ≠ '\n' := h id (List.mem_cons_self id rest)
    have hrest := ih (fun i hi => h i (List.mem_cons_of_mem id hi))
    rw [List.map_cons, List.flatten_cons, List.append_assoc,
      List.singleton_append, splitNl_no_nl_append id hid, hrest,
      List.cons_append]

theorem dropWhile_eq_self_of_none {p : Char → Bool} :
    ∀ l : List Char, (∀ c ∈ l, p c = false) → l.dropWhile p = l := by
  intro l h
  cases l with
  | nil => rfl
  | cons c cs =>
    rw [List.dropWhile_cons, h c (List.mem_cons_self c cs)]
    simp

theorem pyStrip_clean {id : List Char}
    (h : ∀ c ∈ id, isPyWs c = false) : pyStrip id = id := by
  unfold pyStrip
  rw [dropWhile_eq_self_of_none id h,
    dropWhile_eq_self_of_none id.reverse
      (fun c hc => h c (List.mem_reverse.mp hc)),
    List.reverse_reverse]

/-- C8: appending canonical IDs (non-blank, whitespace-free strings,
one newline-terminated line each) to a ledger file in a valid state
(empty or newline-terminated, as `touch` and every append leave it)
and then freshly loading the file yields a set containing every
appended ID. -/
theorem ledger_roundtrip (file : List Char) (ids : List (List Char))
    (hf : validLedger file) (hclean : ∀ id ∈ ids, cleanId id) :
    ∀ id ∈ ids, id ∈ load_tracked_ids (append_ids_to_file file ids) := by
  intro id hid
  have hnl : ∀ i ∈ ids, ∀ c ∈ i, c ≠ '\n' := by
    intro i hi c hc hceq
    have hws := (hclean i hi).2 c hc
    rw [hceq] at hws
    simp [isPyWs] at hws
  unfold append_ids_to_file load_tracked_ids
  rw [splitNl_valid_append file hf, splitNl_flatten ids hnl]
  refine List.mem_filter.mpr ⟨?_, ?_⟩
  · refine List.mem_map.mpr ⟨id, ?_, pyStrip_clean (hclean id hid).2⟩
    exact List.mem_append_right _ (List.mem_append_left _ hid)
  · simpa using (hclean id hid).1

/-- Witness for C8: appending `16_1` and `16_3` to a ledger already
holding one line; both appear in a fresh load (shown for `16_1`). -/
theorem ledger_roundtrip_witness :
    ['1', '6', '_', '1'] ∈ load_tracked_ids
      (append_ids_to_file ['a', '\n']
        [['1', '6', '_', '1'], ['1', '6', '_', '3']]) :=
  ledger_roundtrip ['a', '\n'] [['1', '6', '_', '1'], ['1', '6', '_', '3']]
    (by decide) (by decide) ['1', '6', '_', '1'] (by decide)

end Sqct
